import Mathlib

/-!
Shallow embedding of the machine-event subsystem of `cmd/podman/machine`
(the file shown under `src/pkg/domain/entities/manifest.go`): endpoint
resolution (`resolveEventSock`), the command pre-hook (`initMachineEvents`),
event publication (`newMachineEvent`) and the post-hook
(`closeMachineEvents`), together with a process-level driver.

External collaborators (the filesystem, `net.Dialer`, the json library,
`util.GetRuntimeDir`) are abstracted as oracle fields of a `World` record;
all side effects are recorded in an explicit effect trace.
-/

/-- Filesystem error. The `notExist` flag models what
`errors.Is(err, os.ErrNotExist)` tests in Go. -/
structure FsError where
  notExist : Bool
  msg : String
deriving DecidableEq, Repr

/-- Modelled from the spec: the event record of the external events package
(`libpod/events` is not part of the shown source). It carries a fixed
category tag (`Type`), a lifecycle status, a timestamp, and caller-supplied
contextual fields, represented here by `name`, `image` and `id`. -/
structure Event where
  eventType : String
  status : String
  time : Nat
  name : String
  image : String
  id : String
deriving DecidableEq, Repr

/-- Modelled from the spec: `events.Machine`, the constant category tag for
machine events (serialized as `type="machine"`). -/
def machineEventType : String := "machine"

/-- One entry seen by the directory walk: its full path, its base name
(as a character list, for the pattern match), whether it is a directory,
and whether its file type is exactly `os.ModeSocket`. -/
structure DirEntry where
  path : String
  name : List Char
  isDir : Bool
  isSocket : Bool
deriving DecidableEq, Repr

/-- The external world supplied to one process run:
the `PODMAN_MACHINE_EVENTS_SOCK` environment variable, the result of
`util.GetRuntimeDir`, the sequence of items `filepath.WalkDir` yields under
`<runtime dir>/podman` (an item is either a visited entry or a filesystem
error passed to the walk callback), a dial-success oracle for
`net.Dialer.DialContext`, and the json library's `Marshal`
(`none` models a marshalling error). -/
structure World where
  env : Option String
  runtimeDir : Except String String
  walkItems : List (Except FsError DirEntry)
  dialOk : String → Bool
  marshal : Event → Option String

/-- An observable side effect: a dial attempt on a socket path, a write of a
payload to an open connection, or a close of a connection. The `Bool`
records whether the operation succeeded (per the oracle). -/
inductive Effect where
  | dial (path : String) (ok : Bool)
  | write (conn : String) (payload : String) (ok : Bool)
  | close (conn : String) (ok : Bool)
deriving DecidableEq, Repr

/-- The package-level mutable state of the Go file: `sockPaths` (paths to
unix domain sockets for publishing), the `openEventSock sync.Once` flag, and
`sockets` (opened connections, identified by the path they were dialed to). -/
structure MachineState where
  sockPaths : List String
  onceDone : Bool
  sockets : List String
deriving DecidableEq, Repr

/-- Go zero values of the package-level variables at process start. -/
def initialState : MachineState := ⟨[], false, []⟩

/-- The characters of the literal part `machine_events` of the pattern. -/
def mesPat : List Char := ['m', 'a', 'c', 'h', 'i', 'n', 'e', '_', 'e', 'v', 'e', 'n', 't', 's']

/-- The characters of the literal part `.sock` of the pattern. -/
def sockPat : List Char := ['.', 's', 'o', 'c', 'k']

/-- Matcher for the regex fragment `.*\.sock` at the current position:
either `.sock` matches here, or the current character is consumed by `.*`
(which never consumes a newline, per Go RE2 semantics) and matching
continues. -/
def dotStarSock : List Char → Bool
  | [] => false
  | c :: cs => sockPat.isPrefixOf (c :: cs) || (!(c == '\n') && dotStarSock cs)

/-- Unanchored search semantics of Go's
`regexp.MustCompile(machine_events.*\.sock).MatchString`: a match of the
pattern may start at any position of the name. -/
def reMatch : List Char → Bool
  | [] => false
  | c :: cs =>
    (mesPat.isPrefixOf (c :: cs) && dotStarSock (List.drop mesPat.length (c :: cs)))
      || reMatch cs

/-- The filter applied to a walk entry by the callback in
`resolveEventSock`: keep it only when it is not a directory, its type is
exactly a socket, and the regex matches its name. -/
def fileFilter (d : DirEntry) : Bool :=
  !d.isDir && (d.isSocket && reMatch d.name)

/-- The walk callback of `resolveEventSock` folded over the walk items: an
item-level error aborts the walk with that error; otherwise directories,
non-sockets and non-matching names are skipped and the paths of the
remaining entries are collected in walk order. -/
def walkCollect : List (Except FsError DirEntry) → Except FsError (List String)
  | [] => .ok []
  | .error e :: _ => .error e
  | .ok d :: rest =>
    if d.isDir then walkCollect rest
    else if !d.isSocket then walkCollect rest
    else if !reMatch d.name then walkCollect rest
    else
      match walkCollect rest with
      | .error e => .error e
      | .ok ps => .ok (d.path :: ps)

/-- Embedding of `resolveEventSock`: the environment override returns a
one-element list; a failure of `util.GetRuntimeDir` is logged and yields
`(nil, nil)`; a walk error satisfying `os.ErrNotExist` also yields
`(nil, nil)`; any other walk error is returned; otherwise the collected
paths are returned. -/
def resolveEventSock (w : World) : Except FsError (List String) :=
  match w.env with
  | some sock => .ok [sock]
  | none =>
    match w.runtimeDir with
    | .error _ => .ok []
    | .ok _ =>
      match walkCollect w.walkItems with
      | .error e => if e.notExist then .ok [] else .error e
      | .ok paths => .ok paths

/-- The dial loop shared by `initMachineEvents` and the `sync.Once` body of
`newMachineEvent`: dial each path in order; on failure log and continue; on
success append the connection. Returns the connections opened and the trace
of dial attempts. -/
def dialAll (dialOk : String → Bool) : List String → List String × List Effect
  | [] => ([], [])
  | p :: ps =>
    let (cs, tr) := dialAll dialOk ps
    if dialOk p then (p :: cs, Effect.dial p true :: tr)
    else (cs, Effect.dial p false :: tr)

/-- Result of a lifecycle hook: the Go error return, the package-level state
after the hook, and the trace of side effects it performed. -/
structure HookResult where
  res : Except FsError Unit
  state : MachineState
  trace : List Effect
deriving Repr

/-- Embedding of `initMachineEvents` (the `PersistentPreRunE` pre-hook).
The Go statement `sockPaths, err := resolveEventSock()` is a short variable
declaration, so it binds a local `sockPaths` and the package-level
`s.sockPaths` is left untouched in every branch. On a resolution error the
error is returned; on an empty result the hook returns at once; otherwise
every resolved path is dialed and the successful connections are appended
to the package-level `sockets`. -/
def initMachineEvents (w : World) (s : MachineState) : HookResult :=
  match resolveEventSock w with
  | .error e => ⟨.error e, s, []⟩
  | .ok localPaths =>
    if localPaths.isEmpty then ⟨.ok (), s, []⟩
    else
      ⟨.ok (), { s with sockets := s.sockets ++ (dialAll w.dialOk localPaths).1 },
        (dialAll w.dialOk localPaths).2⟩

/-- The stamping performed by `newMachineEvent` before serialization:
`event.Status = status; event.Time = time.Now(); event.Type = events.Machine`. -/
def stampEvent (status : String) (now : Nat) (event : Event) : Event :=
  { event with status := status, time := now, eventType := machineEventType }

/-- Result of one publish call: the package-level state after the call and
its effect trace. `newMachineEvent` has no error return in Go, so there is
no error component. -/
structure StepResult where
  state : MachineState
  trace : List Effect
deriving Repr

/-- Embedding of `newMachineEvent`. First the `openEventSock.Do` body runs
at most once per process: it reads the package-level `sockPaths` and, when
that list is non-empty, dials each path and appends the successes to
`sockets`. Then the event is stamped and marshalled; a marshalling error is
logged and the function returns. Otherwise the payload is written to every
open connection; a write error is logged and the loop continues. -/
def newMachineEvent (w : World) (now : Nat) (writeOk : String → Bool)
    (status : String) (event : Event) (s : MachineState) : StepResult :=
  let s1 : MachineState :=
    if s.onceDone then s
    else if s.sockPaths.isEmpty then { s with onceDone := true }
    else { s with onceDone := true,
                  sockets := s.sockets ++ (dialAll w.dialOk s.sockPaths).1 }
  let tr1 : List Effect :=
    if s.onceDone then []
    else if s.sockPaths.isEmpty then []
    else (dialAll w.dialOk s.sockPaths).2
  let ev := stampEvent status now event
  match w.marshal ev with
  | none => ⟨s1, tr1⟩
  | some payload =>
    ⟨s1, tr1 ++ s1.sockets.map (fun c => Effect.write c payload (writeOk c))⟩

/-- Embedding of `closeMachineEvents` (the `PersistentPostRunE` post-hook):
every open connection is closed; the result of `sock.Close()` is discarded
(`_ =`), so a close failure neither stops the loop nor surfaces; the hook
always returns `nil`. The state is not modified. -/
def closeMachineEvents (closeOk : String → Bool) (s : MachineState) : HookResult :=
  ⟨.ok (), s, s.sockets.map (fun c => Effect.close c (closeOk c))⟩

/-- Arguments of one `newMachineEvent` call: the value of `time.Now()` at
the call, the status argument, the caller-built partial event, and the
write-success oracle for this call. -/
structure PublishCall where
  now : Nat
  status : String
  event : Event
  writeOk : String → Bool

/-- Run a sequence of publish calls, threading the package state and
concatenating the traces. -/
def runPublishes (w : World) : List PublishCall → MachineState → StepResult
  | [], s => ⟨s, []⟩
  | c :: rest, s =>
    let r1 := newMachineEvent w c.now c.writeOk c.status c.event s
    let r2 := runPublishes w rest r1.state
    ⟨r2.state, r1.trace ++ r2.trace⟩

/-- Log of one successful process run: the pre-hook trace and the state it
leaves, the concatenated trace of the command body's publish calls and the
state after the body, and the post-hook trace. -/
structure RunLog where
  preTrace : List Effect
  afterPre : MachineState
  pubTrace : List Effect
  afterBody : MachineState
  closeTrace : List Effect

/-- Modelled from the spec: the command-execution driver (the cobra
framework is not part of the shown source). The pre-hook runs before the
command body; a pre-hook error aborts the command and is returned. The body
performs the publish calls and finishes with outcome `bodyErr` (`none` for
success); the post-hook runs after the body regardless of that outcome,
which is returned alongside the run log. -/
def runProcess (w : World) (calls : List PublishCall) (bodyErr : Option String)
    (closeOk : String → Bool) : Except FsError (Option String × RunLog) :=
  let ri := initMachineEvents w initialState
  match ri.res with
  | .error e => .error e
  | .ok _ =>
    let rb := runPublishes w calls ri.state
    let rc := closeMachineEvents closeOk rb.state
    .ok (bodyErr, ⟨ri.trace, ri.state, rb.trace, rb.state, rc.trace⟩)

/-- Socket paths of the dial attempts in a trace, in order. -/
def dialsOf (tr : List Effect) : List String :=
  tr.filterMap fun e =>
    match e with
    | .dial p _ => some p
    | _ => none

/-- Connections targeted by the write attempts in a trace, in order. -/
def writeTargets (tr : List Effect) : List String :=
  tr.filterMap fun e =>
    match e with
    | .write c _ _ => some c
    | _ => none

/-- Payloads carried by the write attempts in a trace, in order. -/
def writePayloads (tr : List Effect) : List String :=
  tr.filterMap fun e =>
    match e with
    | .write _ pl _ => some pl
    | _ => none

/-- Connections targeted by the close attempts in a trace, in order. -/
def closeTargets (tr : List Effect) : List String :=
  tr.filterMap fun e =>
    match e with
    | .close c _ => some c
    | _ => none

/-! Helper lemmas about the trace projections. -/

theorem dialsOf_append (a b : List Effect) : dialsOf (a ++ b) = dialsOf a ++ dialsOf b :=
  List.filterMap_append a b _

theorem writeTargets_append (a b : List Effect) :
    writeTargets (a ++ b) = writeTargets a ++ writeTargets b :=
  List.filterMap_append a b _

theorem writePayloads_append (a b : List Effect) :
    writePayloads (a ++ b) = writePayloads a ++ writePayloads b :=
  List.filterMap_append a b _

theorem dialsOf_writes (socks : List String) (pl : String) (ok : String → Bool) :
    dialsOf (socks.map (fun c => Effect.write c pl (ok c))) = [] := by
  induction socks with
  | nil => rfl
  | cons c cs _ => simp [dialsOf, List.filterMap_cons]

theorem writeTargets_writes (socks : List String) (pl : String) (ok : String → Bool) :
    writeTargets (socks.map (fun c => Effect.write c pl (ok c))) = socks := by
  induction socks with
  | nil => rfl
  | cons c cs ih => simpa [writeTargets, List.filterMap_cons] using ih

theorem writePayloads_writes (socks : List String) (pl : String) (ok : String → Bool) :
    writePayloads (socks.map (fun c => Effect.write c pl (ok c))) =
      List.replicate socks.length pl := by
  induction socks with
  | nil => rfl
  | cons c cs ih =>
    simp only [List.map_cons, writePayloads, List.filterMap_cons, List.length_cons,
      List.replicate_succ]
    exact congrArg (pl :: ·) ih

theorem closeTargets_closes (socks : List String) (ok : String → Bool) :
    closeTargets (socks.map (fun c => Effect.close c (ok c))) = socks := by
  induction socks with
  | nil => rfl
  | cons c cs ih => simpa [closeTargets, List.filterMap_cons] using ih

theorem writeTargets_dials (paths : List String) (ok : String → Bool) :
    writeTargets (paths.map (fun p => Effect.dial p (ok p))) = [] := by
  induction paths with
  | nil => rfl
  | cons p ps _ => simp [writeTargets, List.filterMap_cons]

theorem writePayloads_dials (paths : List String) (ok : String → Bool) :
    writePayloads (paths.map (fun p => Effect.dial p (ok p))) = [] := by
  induction paths with
  | nil => rfl
  | cons p ps _ => simp [writePayloads, List.filterMap_cons]

/-! Helper lemmas about `dialAll`. -/

theorem dialAll_fst (ok : String → Bool) (paths : List String) :
    (dialAll ok paths).1 = paths.filter ok := by
  induction paths with
  | nil => rfl
  | cons p ps ih =>
    by_cases h : ok p <;> simp [dialAll, h, ih, List.filter_cons]

theorem dialAll_snd (ok : String → Bool) (paths : List String) :
    (dialAll ok paths).2 = paths.map (fun p => Effect.dial p (ok p)) := by
  induction paths with
  | nil => rfl
  | cons p ps ih =>
    by_cases h : ok p <;> simp [dialAll, h, ih]

theorem dialsOf_dialAll (ok : String → Bool) (paths : List String) :
    dialsOf (dialAll ok paths).2 = paths := by
  rw [dialAll_snd]
  induction paths with
  | nil => rfl
  | cons p ps ih => simpa [dialsOf, List.filterMap_cons] using ih

/-! Correctness of the pattern matcher with respect to a declarative
characterization. -/

theorem isPrefixOf_iff_exists (l s : List Char) :
    l.isPrefixOf s = true ↔ ∃ t, s = l ++ t := by
  induction l generalizing s with
  | nil => simp [List.isPrefixOf]
  | cons a as ih =>
    cases s with
    | nil => simp [List.isPrefixOf]
    | cons b bs =>
      simp only [List.isPrefixOf, Bool.and_eq_true, beq_iff_eq, ih, List.cons_append,
        List.cons.injEq]
      constructor
      · rintro ⟨rfl, t, rfl⟩
        exact ⟨t, rfl, rfl⟩
      · rintro ⟨t, rfl, rfl⟩
        exact ⟨rfl, t, rfl⟩

/-- Declarative reading of the regex fragment `.*\.sock`: some split of the
string places `.sock` after a newline-free middle. -/
def TailMatch (s : List Char) : Prop :=
  ∃ mid post, s = mid ++ (sockPat ++ post) ∧ '\n' ∉ mid

/-- Declarative reading of the full unanchored pattern
`machine_events.*\.sock`: the name contains an occurrence of
`machine_events` followed, after a newline-free middle, by `.sock`. -/
def UnanchoredMatch (s : List Char) : Prop :=
  ∃ pre mid post, s = pre ++ (mesPat ++ (mid ++ (sockPat ++ post))) ∧ '\n' ∉ mid

theorem dotStarSock_iff (s : List Char) : dotStarSock s = true ↔ TailMatch s := by
  induction s with
  | nil =>
    simp only [dotStarSock, TailMatch, Bool.false_eq_true, false_iff]
    rintro ⟨mid, post, h, -⟩
    exact by cases mid <;> simp [sockPat] at h
  | cons c cs ih =>
    simp only [dotStarSock, Bool.or_eq_true, Bool.and_eq_true, Bool.not_eq_eq_eq_not,
      Bool.not_true, beq_eq_false_iff_ne, ne_eq, ih]
    constructor
    · rintro (hpre | ⟨hc, hmid, hpost, heq, hnl⟩)
      · obtain ⟨t, ht⟩ := (isPrefixOf_iff_exists _ _).mp hpre
        exact ⟨[], t, by simpa using ht, by simp⟩
      · refine ⟨c :: hmid, hpost, by simp [heq], ?_⟩
        intro hmem
        rcases List.mem_cons.mp hmem with h1 | h2
        · exact hc h1.symm
        · exact hnl h2
    · rintro ⟨mid, post, heq, hnl⟩
      cases mid with
      | nil =>
        left
        exact (isPrefixOf_iff_exists _ _).mpr ⟨post, by simpa using heq⟩
      | cons m ms =>
        right
        have hc : c = m ∧ cs = ms ++ (sockPat ++ post) := by
          simpa using heq
        refine ⟨?_, ms, post, hc.2, fun h => hnl (List.mem_cons.mpr (Or.inr h))⟩
        intro h
        exact hnl (List.mem_cons.mpr (Or.inl (hc.1 ▸ h.symm)))

theorem reMatch_iff (s : List Char) : reMatch s = true ↔ UnanchoredMatch s := by
  induction s with
  | nil =>
    simp only [reMatch, UnanchoredMatch, Bool.false_eq_true, false_iff]
    rintro ⟨pre, mid, post, h, -⟩
    exact by cases pre <;> simp [mesPat] at h
  | cons c cs ih =>
    simp only [reMatch, Bool.or_eq_true, Bool.and_eq_true, ih]
    constructor
    · rintro (⟨hpre, hdot⟩ | ⟨pre, mid, post, heq, hnl⟩)
      · obtain ⟨t, ht⟩ := (isPrefixOf_iff_exists _ _).mp hpre
        rw [ht, List.drop_left] at hdot
        obtain ⟨mid, post, hteq, hnl⟩ := (dotStarSock_iff t).mp hdot
        exact ⟨[], mid, post, by simp [ht, hteq], hnl⟩
      · exact ⟨c :: pre, mid, post, by simp [heq], hnl⟩
    · rintro ⟨pre, mid, post, heq, hnl⟩
      cases pre with
      | nil =>
        left
        have heq' : c :: cs = mesPat ++ (mid ++ (sockPat ++ post)) := by simpa using heq
        refine ⟨(isPrefixOf_iff_exists _ _).mpr ⟨_, heq'⟩, ?_⟩
        rw [heq', List.drop_left]
        exact (dotStarSock_iff _).mpr ⟨mid, post, rfl, hnl⟩
      | cons p ps =>
        right
        have hc : c = p ∧ cs = ps ++ (mesPat ++ (mid ++ (sockPat ++ post))) := by
          simpa using heq
        exact ⟨ps, mid, post, hc.2, hnl⟩

/-! Helper lemmas about the walk and the hooks. -/

theorem walkCollect_oks (es : List DirEntry) :
    walkCollect (es.map Except.ok) = .ok ((es.filter fileFilter).map DirEntry.path) := by
  induction es with
  | nil => rfl
  | cons d rest ih =>
    by_cases hd : d.isDir
    · simp [walkCollect, fileFilter, hd, ih, List.filter_cons]
    · by_cases hs : d.isSocket
      · by_cases hm : reMatch d.name
        · simp [walkCollect, fileFilter, hd, hs, hm, ih, List.filter_cons]
        · simp [walkCollect, fileFilter, hd, hs, hm, ih, List.filter_cons]
      · simp [walkCollect, fileFilter, hd, hs, ih, List.filter_cons]

theorem initMachineEvents_sockPaths (w : World) (s : MachineState) :
    (initMachineEvents w s).state.sockPaths = s.sockPaths := by
  unfold initMachineEvents
  cases resolveEventSock w with
  | error e => rfl
  | ok paths => by_cases hp : paths.isEmpty <;> simp [hp]

theorem initMachineEvents_error (w : World) (s : MachineState) (e : FsError)
    (h : resolveEventSock w = .error e) :
    initMachineEvents w s = ⟨.error e, s, []⟩ := by
  unfold initMachineEvents
  rw [h]

theorem initMachineEvents_res_ok (w : World) (s : MachineState) (paths : List String)
    (h : resolveEventSock w = .ok paths) :
    (initMachineEvents w s).res = .ok () := by
  unfold initMachineEvents
  rw [h]
  by_cases hp : paths.isEmpty <;> simp [hp]

theorem initMachineEvents_dials (w : World) (s : MachineState) (paths : List String)
    (h : resolveEventSock w = .ok paths) :
    dialsOf (initMachineEvents w s).trace = paths := by
  unfold initMachineEvents
  rw [h]
  by_cases hp : paths.isEmpty
  · rw [List.isEmpty_iff] at hp
    subst hp
    simp [dialsOf]
  · simp [hp, dialsOf_dialAll]

theorem initMachineEvents_sockets (w : World) (s : MachineState) (paths : List String)
    (h : resolveEventSock w = .ok paths) :
    (initMachineEvents w s).state.sockets = s.sockets ++ paths.filter w.dialOk := by
  unfold initMachineEvents
  rw [h]
  by_cases hp : paths.isEmpty
  · rw [List.isEmpty_iff] at hp
    subst hp
    simp
  · simp [hp, dialAll_fst]

theorem newMachineEvent_state (w : World) (now : Nat) (wok : String → Bool)
    (st : String) (ev : Event) (s : MachineState) :
    (newMachineEvent w now wok st ev s).state =
      if s.onceDone then s
      else if s.sockPaths.isEmpty then { s with onceDone := true }
      else { s with onceDone := true,
                    sockets := s.sockets ++ (dialAll w.dialOk s.sockPaths).1 } := by
  simp only [newMachineEvent]
  cases w.marshal (stampEvent st now ev) <;> rfl

theorem newMachineEvent_of_empty_paths (w : World) (now : Nat) (wok : String → Bool)
    (st : String) (ev : Event) (s : MachineState) (h : s.sockPaths = []) :
    (newMachineEvent w now wok st ev s).state.sockets = s.sockets ∧
    (newMachineEvent w now wok st ev s).state.sockPaths = [] ∧
    dialsOf (newMachineEvent w now wok st ev s).trace = [] := by
  unfold newMachineEvent
  cases hm : w.marshal (stampEvent st now ev) <;>
    by_cases ho : s.onceDone <;>
      simp [h, ho, hm, dialsOf, dialsOf_append, dialsOf_writes]

theorem newMachineEvent_writeTargets (w : World) (now : Nat) (wok : String → Bool)
    (st : String) (ev : Event) (s : MachineState) (payload : String)
    (hm : w.marshal (stampEvent st now ev) = some payload) :
    writeTargets (newMachineEvent w now wok st ev s).trace =
      (newMachineEvent w now wok st ev s).state.sockets := by
  simp only [newMachineEvent, hm]
  by_cases ho : s.onceDone
  · simp only [ho, if_true, List.nil_append]
    exact writeTargets_writes _ _ _
  · by_cases hp : s.sockPaths.isEmpty
    · simp only [ho, hp, if_true, if_false, Bool.false_eq_true, List.nil_append]
      exact writeTargets_writes _ _ _
    · simp only [ho, hp, if_false, Bool.false_eq_true]
      rw [writeTargets_append, dialAll_snd, writeTargets_dials, List.nil_append]
      exact writeTargets_writes _ _ _

theorem newMachineEvent_writePayloads (w : World) (now : Nat) (wok : String → Bool)
    (st : String) (ev : Event) (s : MachineState) (payload : String)
    (hm : w.marshal (stampEvent st now ev) = some payload) :
    writePayloads (newMachineEvent w now wok st ev s).trace =
      List.replicate (newMachineEvent w now wok st ev s).state.sockets.length payload := by
  simp only [newMachineEvent, hm]
  by_cases ho : s.onceDone
  · simp only [ho, if_true, List.nil_append]
    exact writePayloads_writes _ _ _
  · by_cases hp : s.sockPaths.isEmpty
    · simp only [ho, hp, if_true, if_false, Bool.false_eq_true, List.nil_append]
      exact writePayloads_writes _ _ _
    · simp only [ho, hp, if_false, Bool.false_eq_true]
      rw [writePayloads_append, dialAll_snd, writePayloads_dials, List.nil_append]
      exact writePayloads_writes _ _ _

theorem runPublishes_of_empty_paths (w : World) (calls : List PublishCall)
    (s : MachineState) (h : s.sockPaths = []) :
    (runPublishes w calls s).state.sockets = s.sockets ∧
    (runPublishes w calls s).state.sockPaths = [] ∧
    dialsOf (runPublishes w calls s).trace = [] := by
  induction calls generalizing s with
  | nil => exact ⟨rfl, h, rfl⟩
  | cons c rest ih =>
    have hne := newMachineEvent_of_empty_paths w c.now c.writeOk c.status c.event s h
    have hih := ih (newMachineEvent w c.now c.writeOk c.status c.event s).state hne.2.1
    refine ⟨?_, hih.2.1, ?_⟩
    · show (runPublishes w rest
        (newMachineEvent w c.now c.writeOk c.status c.event s).state).state.sockets = s.sockets
      rw [hih.1, hne.1]
    · show dialsOf ((newMachineEvent w c.now c.writeOk c.status c.event s).trace ++
        (runPublishes w rest (newMachineEvent w c.now c.writeOk c.status c.event s).state).trace)
        = []
      rw [dialsOf_append, hih.2.2, hne.2.2]
      rfl

theorem dialsOf_closes (socks : List String) (ok : String → Bool) :
    dialsOf (socks.map (fun c => Effect.close c (ok c))) = [] := by
  induction socks with
  | nil => rfl
  | cons c cs _ => simp [dialsOf, List.filterMap_cons]

theorem runProcess_error (w : World) (calls : List PublishCall) (be : Option String)
    (cok : String → Bool) (e : FsError) (h : resolveEventSock w = .error e) :
    runProcess w calls be cok = .error e := by
  simp [runProcess, initMachineEvents_error w initialState e h]

theorem runProcess_ok (w : World) (calls : List PublishCall) (be : Option String)
    (cok : String → Bool) (paths : List String) (h : resolveEventSock w = .ok paths) :
    runProcess w calls be cok = .ok (be,
      ⟨(initMachineEvents w initialState).trace,
       (initMachineEvents w initialState).state,
       (runPublishes w calls (initMachineEvents w initialState).state).trace,
       (runPublishes w calls (initMachineEvents w initialState).state).state,
       (closeMachineEvents cok
         (runPublishes w calls (initMachineEvents w initialState).state).state).trace⟩) := by
  simp [runProcess, initMachineEvents_res_ok w initialState paths h]

/-! Concrete worlds, entries and runs used to instantiate the theorems on
explicit inputs. -/

/-- A caller-built partial event with junk in every field, including the
fields the broadcaster overrides. -/
def testEvent : Event := ⟨"bogus-type", "bogus-status", 999, "vm1", "img", "id1"⟩

/-- World with the override environment variable set and a responsive
listener at the named path. -/
def wEnv : World :=
  ⟨some "/tmp/test.sock", .ok "/run/user/1000", [], fun _ => true, fun _ => some "{}"⟩

/-- One publish call with status `running` at time 5. -/
def callRunning : PublishCall := ⟨5, "running", testEvent, fun _ => true⟩

/-- Walk entry whose name matches the pattern only without anchoring: it
ends in `.bak`, yet contains `machine_events_x.sock` as a substring. -/
def entBak : DirEntry :=
  ⟨"/run/user/1000/podman/machine_events_x.sock.bak",
   "machine_events_x.sock.bak".data, false, true⟩

/-- The anchored filter that claim C3 describes: the name must start with
`machine_events` and end with `.sock`. -/
def specAnchoredFilter (d : DirEntry) : Bool :=
  !d.isDir && (d.isSocket && (mesPat.isPrefixOf d.name && sockPat.isSuffixOf d.name))

/-- World whose walk yields only the `.bak` entry. -/
def wBak : World :=
  ⟨none, .ok "/run/user/1000", [.ok entBak], fun _ => true, fun _ => some "{}"⟩

/-- Log of the run of `wEnv` with the single `callRunning` publish and an
all-success close oracle. -/
def runLogEnv : RunLog :=
  ⟨[.dial "/tmp/test.sock" true], ⟨[], false, ["/tmp/test.sock"]⟩,
   [.write "/tmp/test.sock" "{}" true], ⟨[], true, ["/tmp/test.sock"]⟩,
   [.close "/tmp/test.sock" true]⟩

/-- Log of the same run with an all-failure close oracle. -/
def runLogEnvCloseFail : RunLog :=
  ⟨[.dial "/tmp/test.sock" true], ⟨[], false, ["/tmp/test.sock"]⟩,
   [.write "/tmp/test.sock" "{}" true], ⟨[], true, ["/tmp/test.sock"]⟩,
   [.close "/tmp/test.sock" false]⟩

/-- A genuine filesystem fault, not `os.ErrNotExist`. -/
def errPerm : FsError := ⟨false, "permission denied"⟩

/-- World whose walk fails with `errPerm`. -/
def wPerm : World :=
  ⟨none, .ok "/run/user/1000", [.error errPerm], fun _ => true, fun _ => some "{}"⟩

/-- World with the override set but a broken filesystem, showing that
resolution ignores the filesystem when the override is present. -/
def wEnvB : World :=
  ⟨some "/tmp/test.sock", .error "no runtime dir", [.error ⟨false, "io"⟩],
   fun _ => false, fun _ => none⟩

/-- Two pattern-matching socket entries. -/
def entA : DirEntry :=
  ⟨"/run/user/1000/podman/machine_events_a.sock",
   "machine_events_a.sock".data, false, true⟩

def entB : DirEntry :=
  ⟨"/run/user/1000/podman/machine_events_b.sock",
   "machine_events_b.sock".data, false, true⟩

/-- World that resolves two endpoints of which only the first dials
successfully. -/
def wTwo : World :=
  ⟨none, .ok "/run/user/1000", [.ok entA, .ok entB],
   fun p => p == entA.path, fun _ => some "{}"⟩

/-- A state with two open connections, used to exercise the write loop. -/
def stateTwoConns : MachineState := ⟨[], false, ["/tmp/a.sock", "/tmp/b.sock"]⟩

/-! Claim theorems. -/

/-- C1, counterexample: with the override variable set to `/tmp/test.sock`
and a responsive listener there, the pre-hook resolves the endpoint and
itself dials it (its trace contains a dial and is not empty), while the
first publish request performs no dialing at all — contrary to the claim
that the pre-hook records endpoints without dialing and that dialing every
resolved endpoint happens lazily on the first publish request. -/
theorem c1_counterexample :
    resolveEventSock wEnv = .ok ["/tmp/test.sock"] ∧
    dialsOf (initMachineEvents wEnv initialState).trace = ["/tmp/test.sock"] ∧
    dialsOf (initMachineEvents wEnv initialState).trace ≠ [] ∧
    dialsOf (newMachineEvent wEnv 5 (fun _ => true) "running" testEvent
      (initMachineEvents wEnv initialState).state).trace = [] := by
  refine ⟨rfl, rfl, ?_, rfl⟩
  decide

/-- C1, amended: the pre-hook resolves endpoints and immediately dials
every resolved endpoint (its dial trace is exactly the resolved list),
recording the successful connections for the process; a publish request
issued after the pre-hook performs no dialing, because the package-level
path list it reads was shadowed in the pre-hook and stays empty. -/
theorem c1_amended_eager_dialing (w : World) (paths : List String)
    (hres : resolveEventSock w = .ok paths) :
    dialsOf (initMachineEvents w initialState).trace = paths ∧
    ∀ (now : Nat) (wok : String → Bool) (st : String) (ev : Event),
      dialsOf (newMachineEvent w now wok st ev
        (initMachineEvents w initialState).state).trace = [] := by
  refine ⟨initMachineEvents_dials w initialState paths hres, fun now wok st ev => ?_⟩
  have hsp : (initMachineEvents w initialState).state.sockPaths = [] :=
    initMachineEvents_sockPaths w initialState
  exact (newMachineEvent_of_empty_paths w now wok st ev _ hsp).2.2

/-- C1, witness for the amended theorem at the concrete world `wEnv`. -/
theorem c1_amended_witness :
    dialsOf (initMachineEvents wEnv initialState).trace = ["/tmp/test.sock"] :=
  (c1_amended_eager_dialing wEnv ["/tmp/test.sock"] rfl).1

/-- C2: in every successful process run, the package-level socket-path list
is still empty after the pre-hook and after the command body (no function
ever assigns it — the pre-hook's short variable declaration shadows it),
the publish phase performs no dialing, and the live socket set after the
body is exactly the one the pre-hook created. -/
theorem c2_sockPaths_never_assigned (w : World) (calls : List PublishCall)
    (be be' : Option String) (cok : String → Bool) (r : RunLog)
    (h : runProcess w calls be cok = .ok (be', r)) :
    r.afterPre.sockPaths = [] ∧
    r.afterBody.sockPaths = [] ∧
    dialsOf r.pubTrace = [] ∧
    r.afterBody.sockets = r.afterPre.sockets := by
  cases hres : resolveEventSock w with
  | error e =>
    rw [runProcess_error w calls be cok e hres] at h
    simp at h
  | ok paths =>
    rw [runProcess_ok w calls be cok paths hres] at h
    have h2 : _ = r := congrArg Prod.snd (Except.ok.inj h)
    subst h2
    have hsp : (initMachineEvents w initialState).state.sockPaths = [] :=
      initMachineEvents_sockPaths w initialState
    have hrp := runPublishes_of_empty_paths w calls
      (initMachineEvents w initialState).state hsp
    exact ⟨hsp, hrp.2.1, hrp.2.2, hrp.1⟩

/-- C2, witness at the concrete run of `wEnv` with one publish call. -/
theorem c2_witness :
    runLogEnv.afterPre.sockPaths = [] ∧
    runLogEnv.afterBody.sockPaths = [] ∧
    dialsOf runLogEnv.pubTrace = [] ∧
    runLogEnv.afterBody.sockets = runLogEnv.afterPre.sockets :=
  c2_sockPaths_never_assigned wEnv [callRunning] none none (fun _ => true) runLogEnv rfl

/-- C3, counterexample: the walk entry `machine_events_x.sock.bak` is a
socket and not a directory, its name does not have suffix `.sock` (so the
claim's anchored filter rejects it), yet the code's unanchored regex match
accepts it and `resolveEventSock` returns it as an endpoint. -/
theorem c3_counterexample :
    specAnchoredFilter entBak = false ∧
    fileFilter entBak = true ∧
    resolveEventSock wBak = .ok ["/run/user/1000/podman/machine_events_x.sock.bak"] := by
  exact ⟨by decide, by decide, rfl⟩

/-- C3, amended: during the directory walk an entry is included as an
endpoint if and only if it is not a directory, its file type is socket, and
its name contains — anywhere, unanchored — an occurrence of
`machine_events` followed, after a middle segment free of newlines, by
`.sock`; the name need not start with `machine_events` nor end with
`.sock`. -/
theorem c3_amended_unanchored (es : List DirEntry) :
    walkCollect (es.map Except.ok) = .ok ((es.filter fileFilter).map DirEntry.path) ∧
    ∀ d : DirEntry, fileFilter d = true ↔
      (d.isDir = false ∧ d.isSocket = true ∧ UnanchoredMatch d.name) := by
  refine ⟨walkCollect_oks es, fun d => ?_⟩
  simp [fileFilter, reMatch_iff]

/-- C4: in every successful process run whose resolved endpoint list has no
duplicates (a filesystem walk visits each path at most once, and the
override yields a single path), no path is dialed more than once across the
entire trace — pre-hook, all publish calls, and post-hook together. -/
theorem c4_dial_at_most_once (w : World) (calls : List PublishCall)
    (be be' : Option String) (cok : String → Bool) (r : RunLog)
    (paths : List String) (p : String)
    (hres : resolveEventSock w = .ok paths) (hnd : paths.Nodup)
    (h : runProcess w calls be cok = .ok (be', r)) :
    (dialsOf (r.preTrace ++ r.pubTrace ++ r.closeTrace)).count p ≤ 1 := by
  cases hres2 : resolveEventSock w with
  | error e =>
    rw [runProcess_error w calls be cok e hres2] at h
    simp at h
  | ok paths2 =>
    have hpp : paths2 = paths := by
      have := hres2.symm.trans hres
      exact Except.ok.inj this
    subst hpp
    rw [runProcess_ok w calls be cok paths2 hres2] at h
    have h2 : _ = r := congrArg Prod.snd (Except.ok.inj h)
    subst h2
    have hsp : (initMachineEvents w initialState).state.sockPaths = [] :=
      initMachineEvents_sockPaths w initialState
    have hrp := runPublishes_of_empty_paths w calls
      (initMachineEvents w initialState).state hsp
    have hpre := initMachineEvents_dials w initialState paths2 hres2
    have hclose : dialsOf (closeMachineEvents cok
        (runPublishes w calls (initMachineEvents w initialState).state).state).trace = [] :=
      dialsOf_closes _ _
    rw [dialsOf_append, dialsOf_append, hpre, hrp.2.2, hclose]
    simpa using List.nodup_iff_count_le_one.mp hnd p

/-- C4, witness at the concrete run of `wEnv`. -/
theorem c4_witness :
    (dialsOf (runLogEnv.preTrace ++ runLogEnv.pubTrace ++ runLogEnv.closeTrace)).count
      "/tmp/test.sock" ≤ 1 :=
  c4_dial_at_most_once wEnv [callRunning] none none (fun _ => true) runLogEnv
    ["/tmp/test.sock"] "/tmp/test.sock" rfl (by decide) rfl

/-- C5: when resolution yields `paths` (N endpoints) of which exactly the
ones accepted by the dial oracle succeed (K endpoints), the pre-hook leaves
exactly those K connections live, K never exceeds N, and a subsequent
publish whose marshalling succeeds attempts exactly K writes. -/
theorem c5_k_of_n_connections (w : World) (paths : List String) (now : Nat)
    (wok : String → Bool) (st : String) (ev : Event) (payload : String)
    (hres : resolveEventSock w = .ok paths)
    (hm : w.marshal (stampEvent st now ev) = some payload) :
    (initMachineEvents w initialState).state.sockets = paths.filter w.dialOk ∧
    (paths.filter w.dialOk).length ≤ paths.length ∧
    (writeTargets (newMachineEvent w now wok st ev
      (initMachineEvents w initialState).state).trace).length =
        (paths.filter w.dialOk).length := by
  have hsocks : (initMachineEvents w initialState).state.sockets = paths.filter w.dialOk := by
    rw [initMachineEvents_sockets w initialState paths hres]
    rfl
  refine ⟨hsocks, List.length_filter_le _ _, ?_⟩
  have hsp : (initMachineEvents w initialState).state.sockPaths = [] :=
    initMachineEvents_sockPaths w initialState
  rw [newMachineEvent_writeTargets w now wok st ev _ payload hm,
    (newMachineEvent_of_empty_paths w now wok st ev _ hsp).1, hsocks]

/-- C5, witness at the concrete world `wTwo`: two resolved endpoints, one
successful dial, one live connection, one write. -/
theorem c5_witness :
    (initMachineEvents wTwo initialState).state.sockets =
      [entA.path, entB.path].filter wTwo.dialOk ∧
    ([entA.path, entB.path].filter wTwo.dialOk).length ≤ [entA.path, entB.path].length ∧
    (writeTargets (newMachineEvent wTwo 5 (fun _ => true) "running" testEvent
      (initMachineEvents wTwo initialState).state).trace).length =
        ([entA.path, entB.path].filter wTwo.dialOk).length :=
  c5_k_of_n_connections wTwo [entA.path, entB.path] 5 (fun _ => true) "running"
    testEvent "{}" rfl rfl

/-- C6: resolution returns an empty list and no error both when the runtime
directory cannot be determined and when the walk fails with a
does-not-exist error; any other walk error is returned by `resolveEventSock`,
returned in turn by the pre-hook, and aborts the command run. -/
theorem c6_resolution_errors (w : World) (msg dir : String) (e : FsError)
    (calls : List PublishCall) (be : Option String) (cok : String → Bool) :
    (w.env = none → w.runtimeDir = .error msg → resolveEventSock w = .ok []) ∧
    (w.env = none → w.runtimeDir = .ok dir → walkCollect w.walkItems = .error e →
      ((e.notExist = true → resolveEventSock w = .ok []) ∧
       (e.notExist = false →
         resolveEventSock w = .error e ∧
         (initMachineEvents w initialState).res = .error e ∧
         runProcess w calls be cok = .error e))) := by
  constructor
  · intro he hr
    simp [resolveEventSock, he, hr]
  · intro he hr hw
    constructor
    · intro hne
      simp [resolveEventSock, he, hr, hw, hne]
    · intro hne
      have h1 : resolveEventSock w = .error e := by
        simp [resolveEventSock, he, hr, hw, hne]
      refine ⟨h1, ?_, runProcess_error w calls be cok e h1⟩
      rw [initMachineEvents_error w initialState e h1]

/-- C6, witness: a permission error during the walk surfaces from
resolution, from the pre-hook, and aborts the run of `wPerm`. -/
theorem c6_witness :
    resolveEventSock wPerm = .error errPerm ∧
    (initMachineEvents wPerm initialState).res = .error errPerm ∧
    runProcess wPerm [] none (fun _ => true) = .error errPerm :=
  ((c6_resolution_errors wPerm "" "/run/user/1000" errPerm [] none
      (fun _ => true)).2 rfl rfl rfl).2 rfl

/-- C7: `newMachineEvent` has no error return at all (its result type
carries only the new state and the trace), and within one publish call
whose marshalling succeeds, the set of attempted write targets is exactly
the set of live connections and does not depend on the write-success
oracle: a write failure on one connection never suppresses the attempt on
any other. -/
theorem c7_write_failures_contained (w : World) (now : Nat) (wok : String → Bool)
    (st : String) (ev : Event) (s : MachineState) (payload : String)
    (hm : w.marshal (stampEvent st now ev) = some payload) :
    writeTargets (newMachineEvent w now wok st ev s).trace =
      (newMachineEvent w now wok st ev s).state.sockets ∧
    ∀ wok2 : String → Bool,
      writeTargets (newMachineEvent w now wok2 st ev s).trace =
        writeTargets (newMachineEvent w now wok st ev s).trace := by
  refine ⟨newMachineEvent_writeTargets w now wok st ev s payload hm, fun wok2 => ?_⟩
  rw [newMachineEvent_writeTargets w now wok2 st ev s payload hm,
    newMachineEvent_writeTargets w now wok st ev s payload hm,
    newMachineEvent_state, newMachineEvent_state]

/-- C7, witness: with two live connections and an all-failure write oracle,
both connections are still attempted. -/
theorem c7_witness :
    writeTargets (newMachineEvent wEnv 5 (fun _ => false) "running" testEvent
      stateTwoConns).trace =
      (newMachineEvent wEnv 5 (fun _ => false) "running" testEvent
        stateTwoConns).state.sockets :=
  (c7_write_failures_contained wEnv 5 (fun _ => false) "running" testEvent
    stateTwoConns "{}" rfl).1

/-- C8: the record marshalled by a publish call is the caller's event with
`Status` set from the status argument, `Time` set to the instant of the
call, and `Type` set to the fixed machine category — overriding whatever
the caller placed in those fields — while the caller's contextual fields
are preserved; every write of that call carries the payload obtained by
marshalling this stamped record. -/
theorem c8_stamped_before_serialization (w : World) (now : Nat)
    (wok : String → Bool) (st : String) (ev : Event) (s : MachineState)
    (payload : String) (hm : w.marshal (stampEvent st now ev) = some payload) :
    (stampEvent st now ev).status = st ∧
    (stampEvent st now ev).time = now ∧
    (stampEvent st now ev).eventType = machineEventType ∧
    (stampEvent st now ev).name = ev.name ∧
    (stampEvent st now ev).image = ev.image ∧
    (stampEvent st now ev).id = ev.id ∧
    writePayloads (newMachineEvent w now wok st ev s).trace =
      List.replicate (newMachineEvent w now wok st ev s).state.sockets.length payload :=
  ⟨rfl, rfl, rfl, rfl, rfl, rfl,
    newMachineEvent_writePayloads w now wok st ev s payload hm⟩

/-- C8, witness: the junk the caller placed in `Type`, `Status` and `Time`
of `testEvent` is overridden, and the single write of the `wEnv` run
carries the marshalled stamped payload. -/
theorem c8_witness :
    (stampEvent "running" 5 testEvent).status = "running" ∧
    (stampEvent "running" 5 testEvent).time = 5 ∧
    (stampEvent "running" 5 testEvent).eventType = machineEventType ∧
    writePayloads (newMachineEvent wEnv 5 (fun _ => true) "running" testEvent
      stateTwoConns).trace =
      List.replicate (newMachineEvent wEnv 5 (fun _ => true) "running" testEvent
        stateTwoConns).state.sockets.length "{}" := by
  have h := c8_stamped_before_serialization wEnv 5 (fun _ => true) "running"
    testEvent stateTwoConns "{}" rfl
  exact ⟨h.1, h.2.1, h.2.2.1, h.2.2.2.2.2.2⟩

/-- C9: whenever the override environment variable is set to a path, the
resolver returns exactly that one-element list, and two worlds that agree
on the override agree on the resolution result regardless of their runtime
directory, walk contents and every other oracle — no scanning occurs. -/
theorem c9_env_override (w w2 : World) (p : String)
    (h : w.env = some p) (h2 : w2.env = some p) :
    resolveEventSock w = .ok [p] ∧ resolveEventSock w2 = resolveEventSock w := by
  have r1 : resolveEventSock w = .ok [p] := by simp [resolveEventSock, h]
  have r2 : resolveEventSock w2 = .ok [p] := by simp [resolveEventSock, h2]
  exact ⟨r1, r2.trans r1.symm⟩

/-- C9, witness: `wEnv` and `wEnvB` share the override but have entirely
different filesystems; both resolve to the same single endpoint. -/
theorem c9_witness :
    resolveEventSock wEnv = .ok ["/tmp/test.sock"] ∧
    resolveEventSock wEnvB = resolveEventSock wEnv :=
  c9_env_override wEnv wEnvB "/tmp/test.sock" rfl rfl

/-- C10: in every successful run — whatever the body outcome `be`, success
or failure — the post-hook trace closes exactly the live connections left
by the body; the post-hook never returns an error, and the set of close
targets does not depend on the close-success oracle: one close failure
never prevents closing the rest. -/
theorem c10_post_hook_closes_all (w : World) (calls : List PublishCall)
    (be be' : Option String) (cok : String → Bool) (r : RunLog)
    (h : runProcess w calls be cok = .ok (be', r)) :
    (closeMachineEvents cok r.afterBody).res = .ok () ∧
    closeTargets r.closeTrace = r.afterBody.sockets ∧
    ∀ cok2 : String → Bool,
      closeTargets (closeMachineEvents cok2 r.afterBody).trace =
        r.afterBody.sockets := by
  cases hres : resolveEventSock w with
  | error e =>
    rw [runProcess_error w calls be cok e hres] at h
    simp at h
  | ok paths =>
    rw [runProcess_ok w calls be cok paths hres] at h
    have h2 : _ = r := congrArg Prod.snd (Except.ok.inj h)
    subst h2
    exact ⟨rfl, closeTargets_closes _ _, fun cok2 => closeTargets_closes _ _⟩

/-- C10, witness: the body of the `wEnv` run fails and every close fails,
yet the post-hook still returns no error and still targets the one live
connection. -/
theorem c10_witness :
    (closeMachineEvents (fun _ => false) runLogEnvCloseFail.afterBody).res = .ok () ∧
    closeTargets runLogEnvCloseFail.closeTrace = runLogEnvCloseFail.afterBody.sockets :=
  ⟨(c10_post_hook_closes_all wEnv [callRunning] (some "body failed")
      (some "body failed") (fun _ => false) runLogEnvCloseFail rfl).1,
   (c10_post_hook_closes_all wEnv [callRunning] (some "body failed")
      (some "body failed") (fun _ => false) runLogEnvCloseFail rfl).2.1⟩
